import Mathlib

/-!
Shallow embedding of `src/stock.py` (stock-change): a terminal portfolio
tracker.  Python floats are modelled as exact rationals (`ℚ`), dates as
integers (days), and the yfinance market-data provider as an abstract
environment mapping ticker strings to optional data (`none` = the provider
call raised an exception or the field is missing).  The mutable rate cache
(a Python dict) is an association list threaded explicitly.
-/

namespace Stock

/-- Fields of `fast_info` for a stock ticker as used by `get_ticker_summary`:
`lastPrice`, `previousClose`, `currency`.  `none` models a missing field
(`fi.get(...)` returning `None`). -/
structure TickerInfo where
  lastPrice : Option ℚ
  previousClose : Option ℚ
  currency : Option String
deriving Repr, DecidableEq

/-- Dividend-related provider data for one symbol, as used by
`get_dividend_data`.  `calendar`: outer `none` means `t.calendar` is falsy
or has no "Ex-Dividend Date" key; the inner option is the value of that key
(`none` = Python `None`, which is falsy).  Dates are modelled as integers. -/
structure DividendInfo where
  calendar : Option (Option ℤ)
  lastDividendValue : Option ℚ
  dividendRate : Option ℚ
deriving Repr, DecidableEq

/-- The market-data provider (yfinance), abstracted:
`pairPrice p` is `ticker.fast_info["lastPrice"]` for the currency-pair
ticker named `p` (`none` = the access raised / data missing);
`tickerInfo s` is the `fast_info` of stock `s` (`none` = fetch raised);
`divInfo s` is the dividend data of stock `s` (`none` = fetch raised). -/
structure Env where
  pairPrice : String → Option ℚ
  tickerInfo : String → Option TickerInfo
  divInfo : String → Option DividendInfo

/-- The per-cycle rate cache (a Python dict keyed by pair name),
modelled as an association list; insertion prepends, lookup takes the
most recent binding. -/
abbrev Cache := List (String × ℚ)

def Cache.find? (cache : Cache) (k : String) : Option ℚ :=
  List.lookup k cache

def Cache.insert (cache : Cache) (k : String) (v : ℚ) : Cache :=
  (k, v) :: cache

/-- Name of a yfinance currency pair: the source code, the target code,
and an =X suffix, as the source builds with an f-string. -/
def pairName (source target : String) : String :=
  source ++ target ++ "=X"

/-- Result of one `get_rate` call: the resolved rate (`none` = failure),
the cache after the call, and the number of provider lookups performed
(used to state "no network lookup" properties). -/
structure RateResult where
  rate : Option ℚ
  cache : Cache
  lookups : ℕ
deriving Repr, DecidableEq

/-- Embedding of `get_rate(source, target, cache)` from `src/stock.py`:
identity rate for `source == target`; then cache lookup; then the direct
pair (whatever value the provider returns, 0 included, is cached and
returned); then the inverse pair, whose price is inverted — a zero inverse
price raises `ZeroDivisionError`, caught as failure, before any cache
write. -/
def get_rate (env : Env) (source target : String) (cache : Cache) : RateResult :=
  if source = target then ⟨some 1, cache, 0⟩
  else
    let pair := pairName source target
    match Cache.find? cache pair with
    | some r => ⟨some r, cache, 0⟩
    | none =>
      match env.pairPrice pair with
      | some rate => ⟨some rate, Cache.insert cache pair rate, 1⟩
      | none =>
        match env.pairPrice (pairName target source) with
        | some p =>
          if p = 0 then ⟨none, cache, 2⟩
          else ⟨some (1 / p), Cache.insert cache pair (1 / p), 2⟩
        | none => ⟨none, cache, 2⟩

/-- The dict returned by `get_ticker_summary` (the `ticker_obj` handle is
represented by the symbol itself, which is how `get_dividend_data` is
keyed in this embedding). -/
structure SummaryData where
  symbol : String
  qty : ℚ
  val_now : ℚ
  val_prev : ℚ
  chg_pct : ℚ
  conv : ℚ
  source_currency : String
deriving Repr, DecidableEq

/-- Python truthiness of an optional number: `None` and `0` are falsy. -/
def truthyNum : Option ℚ → Bool
  | none => false
  | some x => decide (x ≠ 0)

/-- Embedding of `get_ticker_summary(symbol, qty, target_currency, rate_cache)` from
`src/stock.py`.  Returns the summary dict (or `None` on any failure:
fetch exception, missing price, unresolved rate) together with the rate
cache after the call (the Python dict is mutated in place by `get_rate`). -/
def get_ticker_summary (env : Env) (symbol : String) (qty : ℚ)
    (target_currency : String) (rate_cache : Cache) :
    Option SummaryData × Cache :=
  match env.tickerInfo symbol with
  | none => (none, rate_cache)
  | some fi =>
    let price := fi.lastPrice
    let prev_close := fi.previousClose
    let source_currency := fi.currency.getD "USD"
    let r := get_rate env source_currency target_currency rate_cache
    match price, r.rate with
    | some p, some conv =>
      let val_now := p * conv * qty
      let val_prev :=
        if truthyNum prev_close then prev_close.getD 0 * conv * qty else val_now
      let chg_pct :=
        if truthyNum prev_close then
          (p - prev_close.getD 0) / prev_close.getD 0 * 100
        else 0
      (some { symbol := symbol, qty := qty, val_now := val_now,
              val_prev := val_prev, chg_pct := chg_pct, conv := conv,
              source_currency := source_currency }, r.cache)
    | _, _ => (none, r.cache)

/-- The `CURRENCY_SYMBOLS` table of `src/stock.py`. -/
def CURRENCY_SYMBOLS : List (String × String) :=
  [("EUR", "€"), ("USD", "$"), ("GBP", "£"), ("SEK", "kr"),
   ("JPY", "¥"), ("CHF", "Fr"), ("CAD", "C$"), ("AUD", "A$")]

/-- The dict returned by `get_dividend_data`. -/
structure DividendEvent where
  symbol : String
  ex_date : ℤ
  amt : ℚ
  total_p : ℚ
  cur_label : String
deriving Repr, DecidableEq

/-- Python `a or d` over an optional number, where `None` and `0` are
falsy (used for `lastDividendValue or dividendRate or 0`). -/
def falsyOr (a : Option ℚ) (d : ℚ) : ℚ :=
  match a with
  | none => d
  | some x => if x = 0 then d else x

/-- Embedding of `get_dividend_data(summary_data)` from `src/stock.py`: emits an event
only when the calendar has a truthy ex-dividend date that is today or
later and the amount `lastDividendValue or dividendRate or 0` is strictly
positive; any provider exception yields `None`.  `today` stands for
`datetime.now().date()`. -/
def get_dividend_data (env : Env) (today : ℤ) (summary_data : SummaryData) :
    Option DividendEvent :=
  match env.divInfo summary_data.symbol with
  | none => none
  | some di =>
    match di.calendar with
    | some (some ex_date) =>
      if today ≤ ex_date then
        let div_amt := falsyOr di.lastDividendValue (falsyOr di.dividendRate 0)
        if 0 < div_amt then
          some { symbol := summary_data.symbol, ex_date := ex_date,
                 amt := div_amt,
                 total_p := div_amt * summary_data.conv * summary_data.qty,
                 cur_label :=
                   (List.lookup summary_data.source_currency
                     CURRENCY_SYMBOLS).getD summary_data.source_currency }
        else none
      else none
    | _ => none

/-- The eight glyphs of `chars = " ▂▃▄▅▆▇█"`. -/
def sparkChars : List Char := [' ', '▂', '▃', '▄', '▅', '▆', '▇', '█']

/-- Python `int(q)`: truncation toward zero. -/
def pyInt (q : ℚ) : ℤ :=
  if 0 ≤ q then ⌊q⌋ else ⌈q⌉

/-- The glyph index `min(int((v - min_v) / span * 7), 7)` used by
`render_sparkline`. -/
def sparkLevel (min_v span v : ℚ) : ℕ :=
  (min (pyInt ((v - min_v) / span * 7)) 7).toNat

/-- The list of glyph indices `render_sparkline` uses for a series:
empty for fewer than two points; all 7 (full block) when the observed
span is not positive; otherwise `sparkLevel` of each point. -/
def sparkLevels (values : List ℚ) : List ℕ :=
  match values with
  | [] => []
  | [_] => []
  | v :: w :: vs =>
    let min_v := (w :: vs).foldl min v
    let max_v := (w :: vs).foldl max v
    let span := max_v - min_v
    if span ≤ 0 then List.replicate (v :: w :: vs).length 7
    else (v :: w :: vs).map fun x => sparkLevel min_v span x

/-- Embedding of `render_sparkline(values)` from `src/stock.py`: empty string for
fewer than two values; `"█" * len(values)` when `max - min <= 0`;
otherwise one glyph per value indexed by `sparkLevel`. -/
def render_sparkline (values : List ℚ) : String :=
  match values with
  | [] => ""
  | [_] => ""
  | v :: w :: vs =>
    let min_v := (w :: vs).foldl min v
    let max_v := (w :: vs).foldl max v
    let span := max_v - min_v
    if span ≤ 0 then String.mk (List.replicate (v :: w :: vs).length '█')
    else String.mk ((v :: w :: vs).map fun x =>
      (sparkChars.getD (sparkLevel min_v span x) ' '))

/-- A single daily row of the downloaded `Close` table in `fetch_history`,
as a partial map from column name (stock symbol or rate-pair name) to
closing value; `none` models a missing column or NaN cell. -/
abbrev HistRow := String → Option ℚ

/-- Lookup `ticker_to_currency.get(sym, "USD")` in `fetch_history`. -/
def historySrcCurrency (ticker_to_currency : List (String × String))
    (sym : String) : String :=
  (List.lookup sym ticker_to_currency).getD "USD"

/-- The inner per-day accumulation of `fetch_history`: sums
`close * qty * rate` over the holdings that have data on this day, with
rate 1 for the target currency itself and a fallback rate of 1 when the
pair column is missing; the boolean is `has_data`. -/
def dailyTotal (holdings : List (String × ℚ)) (target_currency : String)
    (ticker_to_currency : List (String × String)) (row : HistRow) : ℚ × Bool :=
  holdings.foldl
    (fun acc sq =>
      match row sq.1 with
      | none => acc
      | some close =>
        let src_curr := historySrcCurrency ticker_to_currency sq.1
        let rate :=
          if src_curr = target_currency then 1
          else (row (pairName src_curr target_currency)).getD 1
        (acc.1 + close * sq.2 * rate, true))
    (0, false)

/-- Embedding of `fetch_history(holdings, target_currency, ticker_to_currency)` from
`src/stock.py`, with the `yf.download` response abstracted as an optional
list of daily rows (`none` = the download raised; an empty frame gives
an empty list).  Days where no holding has data are skipped. -/
def fetch_history (holdings : List (String × ℚ)) (target_currency : String)
    (ticker_to_currency : List (String × String))
    (table : Option (List HistRow)) : List ℚ :=
  match table with
  | none => []
  | some rows =>
    rows.filterMap fun row =>
      let dt := dailyTotal holdings target_currency ticker_to_currency row
      if dt.2 then some dt.1 else none

/-- Row order used by `sorted(summary_results, key=lambda x: x["symbol"])`. -/
def symbolLe (a b : SummaryData) : Bool :=
  a.symbol ≤ b.symbol

/-- Event order used by `sorted(dividend_results, key=lambda x: x["ex_date"])`. -/
def exDateLe (a b : DividendEvent) : Bool :=
  a.ex_date ≤ b.ex_date

/-- The data content of the rich `Group` built by `build_display_group`:
sorted summary rows, sorted dividend rows, the accumulated totals, the
day-change figure of the summary panel (`none` when the panel is omitted), and
the rendered sparkline (`none` when not shown). -/
structure DisplayGroup where
  rows : List SummaryData
  div_rows : List DividendEvent
  total_val : ℚ
  total_prev : ℚ
  day_change : Option ℚ
  sparkline : Option String
deriving Repr, DecidableEq

/-- Embedding of `build_display_group(summary_results, dividend_results, ...)` from
`src/stock.py`, restricted to its data content (column widths, styles and
the footer are presentation only).  The summary panel — and with it the
aggregate day change — exists only when `total_prev > 0`; the sparkline
additionally needs a truthy history list of more than one point. -/
def build_display_group (summary_results : List SummaryData)
    (dividend_results : List DividendEvent)
    (history_points : Option (List ℚ)) : DisplayGroup :=
  let sorted_rows := summary_results.mergeSort symbolLe
  let total_val := (sorted_rows.map SummaryData.val_now).sum
  let total_prev := (sorted_rows.map SummaryData.val_prev).sum
  let day_change : Option ℚ :=
    if 0 < total_prev then some ((total_val - total_prev) / total_prev * 100)
    else none
  let spark : Option String :=
    if 0 < total_prev then
      match history_points with
      | some pts => if 1 < pts.length then some (render_sparkline pts) else none
      | none => none
    else none
  { rows := sorted_rows,
    div_rows := dividend_results.mergeSort exDateLe,
    total_val := total_val, total_prev := total_prev,
    day_change := day_change, sparkline := spark }

/-- The quote phase of one refresh cycle in `fetch_portfolio`: every
holding is submitted to `get_ticker_summary` against the shared rate
cache and the non-`None` results are collected (`if res: current_summary.append(res)`).
The thread pool is modelled sequentially in submission order; each worker
only reads the environment and the shared cache, so the collected set of
rows does not depend on completion order. -/
def collectSummaries (env : Env) (target_currency : String) :
    List (String × ℚ) → Cache → List SummaryData × Cache
  | [], cache => ([], cache)
  | (s, q) :: rest, cache =>
    match get_ticker_summary env s q target_currency cache with
    | (res, cache') =>
      let tail := collectSummaries env target_currency rest cache'
      match res with
      | some row => (row :: tail.1, tail.2)
      | none => tail

/-! ### Concrete environments for witnesses and counterexamples -/

/-- A provider where the USD→EUR pair quotes a last price of 0 and every
other pair lookup fails. -/
def envUsdEurZero : Env where
  pairPrice := fun p => if p = "USDEUR=X" then some 0 else none
  tickerInfo := fun _ => none
  divInfo := fun _ => none

/-- A provider with a single stock "A": last price 110, previous close
100, native currency EUR; no pair data (end-to-end scenario 1 with the
target currency equal to the native one). -/
def envScenario1 : Env where
  pairPrice := fun _ => none
  tickerInfo := fun s =>
    if s = "A" then some ⟨some 110, some 100, some "EUR"⟩ else none
  divInfo := fun _ => none

/-- A provider with stocks "AAA" and "CCC" priced in EUR and no data for
any other symbol (end-to-end scenario 3: the fetch of the middle holding
fails). -/
def envScenario3 : Env where
  pairPrice := fun _ => none
  tickerInfo := fun s =>
    if s = "AAA" then some ⟨some 10, some 5, some "EUR"⟩
    else if s = "CCC" then some ⟨some 20, some 10, some "EUR"⟩
    else none
  divInfo := fun _ => none

/-- The summary row produced for holding ("AAA", 2) under `envScenario3`. -/
def rowAAA : SummaryData := ⟨"AAA", 2, 20, 10, 100, 1, "EUR"⟩

/-- The summary row produced for holding ("CCC", 1) under `envScenario3`. -/
def rowCCC : SummaryData := ⟨"CCC", 1, 20, 10, 100, 1, "EUR"⟩

/-- A summary row with current value 1100 and previous value 1000, used
to exercise the aggregate day-change computation. -/
def rowPos : SummaryData := ⟨"A", 10, 1100, 1000, 10, 1, "EUR"⟩

/-! ### Helper lemmas -/

/-- Any of the three quote-fetch failure modes (fetch exception, missing
last price, unresolvable conversion rate) makes `get_ticker_summary`
return `None`. -/
lemma summary_absent_of_failure (env : Env) (s : String) (q : ℚ)
    (target : String) (c : Cache)
    (h : env.tickerInfo s = none ∨
      (∃ fi, env.tickerInfo s = some fi ∧ fi.lastPrice = none) ∨
      (∃ fi, env.tickerInfo s = some fi ∧
        (get_rate env (fi.currency.getD "USD") target c).rate = none)) :
    (get_ticker_summary env s q target c).1 = none := by
  rcases h with h | ⟨fi, hfi, hp⟩ | ⟨fi, hfi, hr⟩
  · simp [get_ticker_summary, h]
  · simp [get_ticker_summary, hfi, hp]
  · cases hlp : fi.lastPrice <;> simp [get_ticker_summary, hfi, hr, hlp]

/-- Evaluation of `get_ticker_summary` on the success path: a fetched
info record, a present last price and a resolved rate produce the summary
row built from the formulas of the source. -/
lemma get_ticker_summary_eval (env : Env) (symbol : String) (qty : ℚ)
    (target : String) (cache : Cache) (fi : TickerInfo) (p conv : ℚ)
    (hfi : env.tickerInfo symbol = some fi)
    (hp : fi.lastPrice = some p)
    (hconv : (get_rate env (fi.currency.getD "USD") target cache).rate
      = some conv) :
    (get_ticker_summary env symbol qty target cache).1 =
      some { symbol := symbol, qty := qty,
             val_now := p * conv * qty,
             val_prev := if truthyNum fi.previousClose
               then fi.previousClose.getD 0 * conv * qty else p * conv * qty,
             chg_pct := if truthyNum fi.previousClose
               then (p - fi.previousClose.getD 0) / fi.previousClose.getD 0 * 100
               else 0,
             conv := conv, source_currency := fi.currency.getD "USD" } := by
  simp [get_ticker_summary, hfi, hp, hconv]

/-! ### Claim theorems -/

/-- C1: Whenever the quote fetch yields a last price and the
conversion rate resolves, `get_ticker_summary` returns a row with
`val_now = price * rate * qty`; when the previous close is known and
nonzero, `chg_pct = (price - prev_close) / prev_close * 100` and
`val_prev = prev_close * rate * qty`; otherwise `chg_pct = 0` and
`val_prev` defaults to `val_now`. -/
theorem summary_row_values (env : Env) (symbol : String) (qty : ℚ)
    (target : String) (cache : Cache) (fi : TickerInfo) (p conv : ℚ)
    (hfi : env.tickerInfo symbol = some fi)
    (hp : fi.lastPrice = some p)
    (hconv : (get_rate env (fi.currency.getD "USD") target cache).rate
      = some conv) :
    ∃ row, (get_ticker_summary env symbol qty target cache).1 = some row ∧
      row.val_now = p * conv * qty ∧
      (∀ pc, fi.previousClose = some pc → pc ≠ 0 →
        row.chg_pct = (p - pc) / pc * 100 ∧ row.val_prev = pc * conv * qty) ∧
      ((fi.previousClose = none ∨ fi.previousClose = some 0) →
        row.chg_pct = 0 ∧ row.val_prev = row.val_now) := by
  refine ⟨_, get_ticker_summary_eval env symbol qty target cache fi p conv
    hfi hp hconv, rfl, ?_, ?_⟩
  · intro pc hpc hne
    simp [hpc, truthyNum, hne]
  · rintro (h | h) <;> simp [h, truthyNum]

/-- Witness for C1: end-to-end scenario 1 — holding ("A", 10), price 110,
previous close 100, native currency equal to the target currency: the row
has value 1100, previous value 1000 and day change +10. -/
theorem summary_row_values_witness :
    (get_ticker_summary envScenario1 "A" 10 "EUR" []).1.map
        SummaryData.val_now = some 1100 ∧
    (get_ticker_summary envScenario1 "A" 10 "EUR" []).1.map
        SummaryData.chg_pct = some 10 ∧
    (get_ticker_summary envScenario1 "A" 10 "EUR" []).1.map
        SummaryData.val_prev = some 1000 := by
  obtain ⟨row, hrow, hval, hprev, _⟩ :=
    summary_row_values envScenario1 "A" 10 "EUR" []
      ⟨some 110, some 100, some "EUR"⟩ 110 1 (by decide) rfl (by decide)
  obtain ⟨hchg, hvp⟩ := hprev 100 rfl (by norm_num)
  rw [hrow]
  refine ⟨?_, ?_, ?_⟩ <;> simp [hval, hchg, hvp] <;> norm_num

/-- C4: A quote-fetch failure (fetch exception, missing price field,
or unresolvable rate) yields an absent result; and in a cycle over three
holdings whose middle fetch raises, the collected results are exactly the
rows of the other two holdings, and the displayed total is the sum of
just those two values. -/
theorem quote_failure_skipped (env : Env) (target : String)
    (s1 s2 s3 : String) (q1 q2 q3 : ℚ) (cache c1 c3 : Cache)
    (r1 r3 : SummaryData)
    (hfail : env.tickerInfo s2 = none)
    (h1 : get_ticker_summary env s1 q1 target cache = (some r1, c1))
    (h3 : get_ticker_summary env s3 q3 target c1 = (some r3, c3)) :
    (∀ s q c, (env.tickerInfo s = none ∨
        (∃ fi, env.tickerInfo s = some fi ∧ fi.lastPrice = none) ∨
        (∃ fi, env.tickerInfo s = some fi ∧
          (get_rate env (fi.currency.getD "USD") target c).rate = none)) →
      (get_ticker_summary env s q target c).1 = none) ∧
    (collectSummaries env target [(s1, q1), (s2, q2), (s3, q3)] cache).1
      = [r1, r3] ∧
    (build_display_group
        (collectSummaries env target [(s1, q1), (s2, q2), (s3, q3)] cache).1
        [] none).total_val = r1.val_now + r3.val_now := by
  have h2 : get_ticker_summary env s2 q2 target c1 = (none, c1) := by
    simp [get_ticker_summary, hfail]
  have hc : (collectSummaries env target [(s1, q1), (s2, q2), (s3, q3)] cache).1
      = [r1, r3] := by
    simp [collectSummaries, h1, h2, h3]
  refine ⟨fun s q c h => summary_absent_of_failure env s q target c h, hc, ?_⟩
  rw [hc]
  have hperm := ((List.mergeSort_perm [r1, r3] symbolLe).map
    SummaryData.val_now).sum_eq
  simp [build_display_group, hperm]

/-- Witness for C4: end-to-end scenario 3 under `envScenario3` — the
"BBB" fetch fails, the cycle keeps exactly the "AAA" and "CCC" rows and
totals 40. -/
theorem quote_failure_skipped_witness :
    (collectSummaries envScenario3 "EUR"
        [("AAA", 2), ("BBB", 3), ("CCC", 1)] []).1 = [rowAAA, rowCCC] ∧
    (build_display_group
        (collectSummaries envScenario3 "EUR"
          [("AAA", 2), ("BBB", 3), ("CCC", 1)] []).1
        [] none).total_val = 40 := by
  have h := quote_failure_skipped envScenario3 "EUR" "AAA" "BBB" "CCC"
    2 3 1 [] [] [] rowAAA rowCCC (by decide)
    (by norm_num [get_ticker_summary, envScenario3, get_rate, truthyNum, rowAAA])
    (by
      have hfi : envScenario3.tickerInfo "CCC"
          = some ⟨some 20, some 10, some "EUR"⟩ := by decide
      norm_num [get_ticker_summary, hfi, get_rate, truthyNum, rowCCC])
  refine ⟨h.2.1, ?_⟩
  rw [h.2.2]
  norm_num [rowAAA, rowCCC]

/-- C5: The aggregate day-change figure exists in the built display
exactly when the sum of previous values is strictly positive; when
`total_prev ≤ 0` it is omitted (`none`), not rendered as zero. -/
theorem day_change_omission (rows : List SummaryData)
    (divs : List DividendEvent) (hist : Option (List ℚ)) :
    ((build_display_group rows divs hist).total_prev ≤ 0 →
      (build_display_group rows divs hist).day_change = none) ∧
    (0 < (build_display_group rows divs hist).total_prev →
      (build_display_group rows divs hist).day_change =
        some (((build_display_group rows divs hist).total_val -
               (build_display_group rows divs hist).total_prev) /
              (build_display_group rows divs hist).total_prev * 100)) := by
  constructor
  · intro h
    simp only [build_display_group] at h ⊢
    rw [if_neg (not_lt.mpr h)]
  · intro h
    simp only [build_display_group] at h ⊢
    rw [if_pos h]

/-- Witness for C5: an empty cycle omits the aggregate day change, while
a single row with previous value 1000 and current value 1100 yields +10. -/
theorem day_change_omission_witness :
    (build_display_group [] [] none).day_change = none ∧
    (build_display_group [rowPos] [] none).day_change = some 10 := by
  constructor
  · exact (day_change_omission [] [] none).1 (by simp [build_display_group])
  · have h := (day_change_omission [rowPos] [] none).2
      (by simp [build_display_group, rowPos])
    rw [h]
    simp [build_display_group, rowPos]
    norm_num

/-- C6: For every currency code `c` and every cache state,
`get_rate(c, c, cache)` returns exactly 1.0, performs no provider lookup,
and leaves the cache unchanged. -/
theorem get_rate_same_currency (env : Env) (c : String) (cache : Cache) :
    get_rate env c c cache = ⟨some 1, cache, 0⟩ := by
  simp [get_rate]

/-- C10: For every input series of length 0 or 1, `render_sparkline`
returns the empty string. -/
theorem render_sparkline_short_empty (values : List ℚ)
    (h : values.length ≤ 1) :
    render_sparkline values = "" := by
  cases values with
  | nil => rfl
  | cons v t =>
    cases t with
    | nil => rfl
    | cons w vs => simp at h

/-- Witness for C10 at the concrete series `[]` and `[5]`. -/
theorem render_sparkline_short_empty_witness :
    render_sparkline [] = "" ∧ render_sparkline [(5 : ℚ)] = "" :=
  ⟨render_sparkline_short_empty [] (by decide),
   render_sparkline_short_empty [(5 : ℚ)] (by decide)⟩

/-- C2: When `source ≠ target`, the forward pair is not cached, the
direct lookup fails and the inverse lookup succeeds with a nonzero rate
`R`, `get_rate` returns `1/R` and caches it under the forward key, and a
subsequent call for the same forward pair answers `1/R` from the cache
with no further provider lookup. -/
theorem get_rate_inverse_fallback (env : Env) (source target : String)
    (cache : Cache) (R : ℚ)
    (hne : source ≠ target)
    (hcache : Cache.find? cache (pairName source target) = none)
    (hdirect : env.pairPrice (pairName source target) = none)
    (hinv : env.pairPrice (pairName target source) = some R)
    (hR : R ≠ 0) :
    get_rate env source target cache =
      ⟨some (1 / R), Cache.insert cache (pairName source target) (1 / R), 2⟩ ∧
    get_rate env source target
        (Cache.insert cache (pairName source target) (1 / R)) =
      ⟨some (1 / R), Cache.insert cache (pairName source target) (1 / R), 0⟩ := by
  constructor
  · simp [get_rate, hne, hcache, hdirect, hinv, hR]
  · simp [get_rate, hne, Cache.find?, Cache.insert, List.lookup]

/-- Witness for C2: with only the inverse pair SEK→EUR quoted at 4, the
EUR→SEK resolution returns and caches 1/4, and the second call reads the
cache. -/
theorem get_rate_inverse_fallback_witness :
    get_rate (Env.mk (fun p => if p = "SEKEUR=X" then some 4 else none)
        (fun _ => none) (fun _ => none)) "EUR" "SEK" [] =
      ⟨some (1 / 4), [("EURSEK=X", 1 / 4)], 2⟩ ∧
    get_rate (Env.mk (fun p => if p = "SEKEUR=X" then some 4 else none)
        (fun _ => none) (fun _ => none)) "EUR" "SEK" [("EURSEK=X", 1 / 4)] =
      ⟨some (1 / 4), [("EURSEK=X", 1 / 4)], 0⟩ :=
  get_rate_inverse_fallback
    (Env.mk (fun p => if p = "SEKEUR=X" then some 4 else none)
      (fun _ => none) (fun _ => none))
    "EUR" "SEK" [] 4 (by decide) rfl (by decide) (by decide) (by decide)

/-- C3 counterexample: Under `envUsdEurZero` the USD→EUR resolution
meets the failure condition of the claim on both lookups (the direct lookup
yields a rate of zero and the inverse lookup errors), yet `get_rate`
returns the rate 0 — a successful resolution to 0, not a failure. -/
theorem get_rate_zero_direct_counterexample :
    envUsdEurZero.pairPrice "USDEUR=X" = some 0 ∧
    envUsdEurZero.pairPrice "EURUSD=X" = none ∧
    (get_rate envUsdEurZero "USD" "EUR" []).rate = some 0 ∧
    (get_rate envUsdEurZero "USD" "EUR" []).rate ≠ none := by
  refine ⟨rfl, by decide, by decide, by decide⟩

/-- C3 amended: When `source ≠ target` and the pair is not cached:
if the direct lookup errors and the inverse lookup errors or yields a rate
of zero, resolution fails with no rate and no cache write; but a direct
lookup that yields a rate `r` — zero included — is returned and cached
as-is. -/
theorem get_rate_failure_modes (env : Env) (source target : String)
    (cache : Cache)
    (hne : source ≠ target)
    (hcache : Cache.find? cache (pairName source target) = none) :
    (env.pairPrice (pairName source target) = none →
      (env.pairPrice (pairName target source) = none ∨
       env.pairPrice (pairName target source) = some 0) →
      get_rate env source target cache = ⟨none, cache, 2⟩) ∧
    (∀ r, env.pairPrice (pairName source target) = some r →
      get_rate env source target cache =
        ⟨some r, Cache.insert cache (pairName source target) r, 1⟩) := by
  constructor
  · intro hdir hinv
    rcases hinv with h | h <;> simp [get_rate, hne, hcache, hdir, h]
  · intro r hdir
    simp [get_rate, hne, hcache, hdir]

/-- Witness for the amended C3 under `envUsdEurZero`: EUR→USD fails (the
inverse quotes 0), while USD→EUR resolves to the directly quoted 0. -/
theorem get_rate_failure_modes_witness :
    get_rate envUsdEurZero "EUR" "USD" [] = ⟨none, [], 2⟩ ∧
    get_rate envUsdEurZero "USD" "EUR" [] =
      ⟨some 0, [("USDEUR=X", 0)], 1⟩ :=
  ⟨(get_rate_failure_modes envUsdEurZero "EUR" "USD" [] (by decide) rfl).1
      (by decide) (Or.inr (by decide)),
   (get_rate_failure_modes envUsdEurZero "USD" "EUR" [] (by decide) rfl).2
      0 (by decide)⟩

/-- Dividend data with ex-date 0 ("today") and a last realized dividend
of 2 per share. -/
def divInfoToday : DividendInfo := ⟨some (some 0), some 2, none⟩

/-- Dividend data with ex-date −1 ("yesterday") and a last realized
dividend of 2 per share. -/
def divInfoYesterday : DividendInfo := ⟨some (some (-1)), some 2, none⟩

/-- A provider whose stock "A" has the today ex-date dividend data. -/
def envDivToday : Env :=
  ⟨fun _ => none, fun _ => none,
   fun s => if s = "A" then some divInfoToday else none⟩

/-- A provider whose stock "A" has the yesterday ex-date dividend data. -/
def envDivYesterday : Env :=
  ⟨fun _ => none, fun _ => none,
   fun s => if s = "A" then some divInfoYesterday else none⟩

/-- C7: `get_dividend_data` emits an event only when the ex-dividend
date is today or later and the per-share amount is strictly positive: an
emitted event always satisfies both; a provider error yields absent; an
ex-date before today yields absent; and complete data with a today-or-
future ex-date and positive amount yields the event built from the
formulas of the source. -/
theorem dividend_filter (env : Env) (today : ℤ) (s : SummaryData) :
    (∀ e, get_dividend_data env today s = some e →
      today ≤ e.ex_date ∧ 0 < e.amt) ∧
    (env.divInfo s.symbol = none → get_dividend_data env today s = none) ∧
    (∀ di ex_date, env.divInfo s.symbol = some di →
      di.calendar = some (some ex_date) → ex_date < today →
      get_dividend_data env today s = none) ∧
    (∀ di ex_date, env.divInfo s.symbol = some di →
      di.calendar = some (some ex_date) → today ≤ ex_date →
      0 < falsyOr di.lastDividendValue (falsyOr di.dividendRate 0) →
      get_dividend_data env today s =
        some { symbol := s.symbol, ex_date := ex_date,
               amt := falsyOr di.lastDividendValue (falsyOr di.dividendRate 0),
               total_p := falsyOr di.lastDividendValue (falsyOr di.dividendRate 0)
                 * s.conv * s.qty,
               cur_label := (List.lookup s.source_currency
                 CURRENCY_SYMBOLS).getD s.source_currency }) := by
  refine ⟨?_, ?_, ?_, ?_⟩
  · intro e he
    unfold get_dividend_data at he
    cases hdi : env.divInfo s.symbol with
    | none => simp [hdi] at he
    | some di =>
      cases hcal : di.calendar with
      | none => simp [hdi, hcal] at he
      | some exd =>
        cases exd with
        | none => simp [hdi, hcal] at he
        | some ex_date =>
          simp only [hdi, hcal] at he
          split_ifs at he with hle hamt
          · cases he
            exact ⟨hle, hamt⟩
  · intro h
    simp [get_dividend_data, h]
  · intro di ex_date hdi hcal hlt
    simp only [get_dividend_data, hdi, hcal]
    rw [if_neg (not_le.mpr hlt)]
  · intro di ex_date hdi hcal hle hamt
    simp only [get_dividend_data, hdi, hcal]
    rw [if_pos hle, if_pos hamt]

/-- Witness for C7: end-to-end scenario 4 at `today = 0` — an ex-date of
−1 (yesterday) is excluded while an ex-date of 0 (today) yields the
event, converted with the rate stored on the row. -/
theorem dividend_filter_witness :
    get_dividend_data envDivYesterday 0 rowPos = none ∧
    get_dividend_data envDivToday 0 rowPos = some ⟨"A", 0, 2, 20, "€"⟩ := by
  constructor
  · exact (dividend_filter envDivYesterday 0 rowPos).2.2.1 divInfoYesterday (-1)
      (by decide) rfl (by decide)
  · have h := (dividend_filter envDivToday 0 rowPos).2.2.2 divInfoToday 0
      (by decide) rfl (by decide) (by norm_num [divInfoToday, falsyOr])
    rw [h]
    norm_num [divInfoToday, falsyOr, rowPos, CURRENCY_SYMBOLS]

/-- Folding `min` over a list of equal values yields that value. -/
lemma foldl_min_const (vs : List ℚ) (v c : ℚ) (hv : v = c)
    (hvs : ∀ x ∈ vs, x = c) : vs.foldl min v = c := by
  induction vs generalizing v with
  | nil => simpa using hv
  | cons w ws ih =>
    have hw : w = c := hvs w (by simp)
    exact ih (min v w) (by simp [hv, hw]) (fun x hx => hvs x (by simp [hx]))

/-- Folding `max` over a list of equal values yields that value. -/
lemma foldl_max_const (vs : List ℚ) (v c : ℚ) (hv : v = c)
    (hvs : ∀ x ∈ vs, x = c) : vs.foldl max v = c := by
  induction vs generalizing v with
  | nil => simpa using hv
  | cons w ws ih =>
    have hw : w = c := hvs w (by simp)
    exact ih (max v w) (by simp [hv, hw]) (fun x hx => hvs x (by simp [hx]))

/-- Python `int` truncation is monotone. -/
lemma pyInt_mono {a b : ℚ} (h : a ≤ b) : pyInt a ≤ pyInt b := by
  unfold pyInt
  by_cases ha : 0 ≤ a <;> by_cases hb : 0 ≤ b
  · rw [if_pos ha, if_pos hb]; exact Int.floor_le_floor h
  · exact absurd (le_trans ha h) hb
  · rw [if_neg ha, if_pos hb]
    have h1 : ⌈a⌉ ≤ 0 :=
      Int.ceil_le.mpr (by exact_mod_cast le_of_lt (not_le.mp ha))
    have h2 : (0 : ℤ) ≤ ⌊b⌋ := Int.floor_nonneg.mpr hb
    omega
  · rw [if_neg ha, if_neg hb]; exact Int.ceil_le_ceil h

/-- For a positive span the glyph index is monotone in the value. -/
lemma sparkLevel_mono (min_v span : ℚ) (hspan : 0 < span) {a b : ℚ}
    (h : a ≤ b) : sparkLevel min_v span a ≤ sparkLevel min_v span b := by
  unfold sparkLevel
  have h1 : (a - min_v) / span * 7 ≤ (b - min_v) / span * 7 := by
    have h2 : (a - min_v) / span ≤ (b - min_v) / span :=
      (div_le_div_iff_of_pos_right hspan).mpr (by linarith)
    nlinarith
  exact Int.toNat_le_toNat (min_le_min (pyInt_mono h1) le_rfl)

/-- A replicated list is sorted. -/
lemma sorted_replicate_le (n x : ℕ) :
    List.Sorted (· ≤ ·) (List.replicate n x) := by
  induction n with
  | zero => simp
  | succ m ih =>
    rw [List.replicate_succ, List.sorted_cons]
    exact ⟨fun y hy => le_of_eq (List.eq_of_mem_replicate hy).symm, ih⟩

/-- C8: The sparkline maps each value to one of 8 discrete levels
(`sparkLevel` is always below 8 and the rendered string is the glyph of
the level of each point); a constant series of at least two points renders as
all full blocks (the maximum level); and a monotonically non-decreasing
series produces non-decreasing glyph levels. -/
theorem sparkline_quantization :
    (∀ min_v span v, sparkLevel min_v span v < 8) ∧
    (∀ values : List ℚ, render_sparkline values =
      String.mk ((sparkLevels values).map fun i => sparkChars.getD i ' ')) ∧
    (∀ (values : List ℚ) (c : ℚ), (∀ v ∈ values, v = c) →
      2 ≤ values.length →
      render_sparkline values = String.mk (List.replicate values.length '█')) ∧
    (∀ values : List ℚ, List.Sorted (· ≤ ·) values →
      List.Sorted (· ≤ ·) (sparkLevels values)) := by
  refine ⟨?_, ?_, ?_, ?_⟩
  · intro min_v span v
    have h1 : min (pyInt ((v - min_v) / span * 7)) 7 ≤ 7 := min_le_right _ _
    have h2 := Int.toNat_le_toNat h1
    simpa [sparkLevel] using lt_of_le_of_lt h2 (by norm_num)
  · intro values
    match values with
    | [] => rfl
    | [_] => rfl
    | v :: w :: vs =>
      simp only [render_sparkline, sparkLevels]
      split_ifs with hspan
      · simp [List.map_replicate]
        rfl
      · simp [List.map_map]
        rfl
  · intro values c hconst hlen
    match values with
    | [] => simp at hlen
    | [_] => simp at hlen
    | v :: w :: vs =>
      have hv : v = c := hconst v (by simp)
      have hmin : (w :: vs).foldl min v = c :=
        foldl_min_const (w :: vs) v c hv
          (fun x hx => hconst x (by simp [hx]))
      have hmax : (w :: vs).foldl max v = c :=
        foldl_max_const (w :: vs) v c hv
          (fun x hx => hconst x (by simp [hx]))
      simp only [render_sparkline, hmin, hmax]
      rw [if_pos (by linarith)]
  · intro values hsorted
    match values with
    | [] => simp [sparkLevels]
    | [_] => simp [sparkLevels]
    | v :: w :: vs =>
      simp only [sparkLevels]
      split_ifs with hspan
      · exact sorted_replicate_le _ _
      · have hpos : 0 < (w :: vs).foldl max v - (w :: vs).foldl min v :=
          lt_of_not_le hspan
        exact hsorted.map _ (fun a b hab =>
          sparkLevel_mono ((w :: vs).foldl min v) _ hpos hab)

/-- Witness for C8: a level below 8 at a concrete point, the constant
series `[5,5,5]` rendering as three full blocks, and non-decreasing
levels for the increasing series `[1,2,3]`. -/
theorem sparkline_quantization_witness :
    sparkLevel 0 1 (1 / 2) < 8 ∧
    render_sparkline [5, 5, 5] = String.mk (List.replicate 3 '█') ∧
    List.Sorted (· ≤ ·) (sparkLevels [1, 2, 3]) :=
  ⟨sparkline_quantization.1 0 1 (1 / 2),
   sparkline_quantization.2.2.1 [5, 5, 5] 5 (by decide) (by decide),
   sparkline_quantization.2.2.2 [1, 2, 3] (by decide)⟩

/-- Prepending a `(s, "USD")` binding for a symbol absent from the map
does not change the currency `fetch_history` picks for any symbol. -/
lemma historySrcCurrency_insert_usd (t2c : List (String × String))
    (s : String) (h : List.lookup s t2c = none) (sym : String) :
    historySrcCurrency ((s, "USD") :: t2c) sym = historySrcCurrency t2c sym := by
  unfold historySrcCurrency
  by_cases hss : sym = s
  · subst hss
    simp [List.lookup, h]
  · have hb : (sym == s) = false := beq_eq_false_iff_ne.mpr hss
    simp [List.lookup, hb]

/-- Adding an explicit `"USD"` binding for a symbol unknown to the
currency map leaves `dailyTotal` unchanged. -/
lemma dailyTotal_insert_usd (holdings : List (String × ℚ)) (target : String)
    (t2c : List (String × String)) (s : String) (row : HistRow)
    (h : List.lookup s t2c = none) :
    dailyTotal holdings target ((s, "USD") :: t2c) row =
      dailyTotal holdings target t2c row := by
  unfold dailyTotal
  congr 1
  funext acc sq
  rw [historySrcCurrency_insert_usd t2c s h]

/-- A quote `fast_info` for stock "X" with price 7 and no currency
field; no pair or dividend data. -/
def envNoCurrency : Env where
  pairPrice := fun _ => none
  tickerInfo := fun s => if s = "X" then some ⟨some 7, none, none⟩ else none
  divInfo := fun _ => none

/-- A history row quoting stock "X" at close 3 and the USD→SEK pair at
rate 2. -/
def histRowX : HistRow := fun col =>
  if col = "X" then some 3 else if col = "USDSEK=X" then some 2 else none

/-- C9: When the provider omits the native-currency field, the quote
fetcher assumes `"USD"` — the row is produced (not dropped) with
`source_currency = "USD"` and the USD→target rate — and the history
aggregation likewise treats a symbol missing from its currency map as
`"USD"`-denominated. -/
theorem usd_default_currency :
    (∀ (env : Env) (symbol : String) (qty : ℚ) (target : String)
       (cache : Cache) (fi : TickerInfo) (p conv : ℚ),
      env.tickerInfo symbol = some fi → fi.currency = none →
      fi.lastPrice = some p →
      (get_rate env "USD" target cache).rate = some conv →
      ∃ row, (get_ticker_summary env symbol qty target cache).1 = some row ∧
        row.source_currency = "USD" ∧ row.val_now = p * conv * qty) ∧
    (∀ (holdings : List (String × ℚ)) (target : String)
       (t2c : List (String × String)) (table : Option (List HistRow))
       (s : String),
      List.lookup s t2c = none →
      fetch_history holdings target ((s, "USD") :: t2c) table =
        fetch_history holdings target t2c table) := by
  constructor
  · intro env symbol qty target cache fi p conv hfi hcur hp hconv
    have hgd : fi.currency.getD "USD" = "USD" := by rw [hcur]; rfl
    have hconv' :
        (get_rate env (fi.currency.getD "USD") target cache).rate
          = some conv := by rw [hgd]; exact hconv
    refine ⟨_, get_ticker_summary_eval env symbol qty target cache fi p conv
      hfi hp hconv', ?_, rfl⟩
    simpa using hgd
  · intro holdings target t2c table s h
    cases table with
    | none => rfl
    | some rows =>
      simp only [fetch_history]
      congr 1
      funext row
      rw [dailyTotal_insert_usd holdings target t2c s row h]

/-- Witness for C9: the quote for "X" (price 7, no currency field, target
USD) keeps the instrument with source currency "USD" and value 14; and
the history totals over one row are the same whether "X" is absent from
the currency map or mapped to "USD". -/
theorem usd_default_currency_witness :
    (get_ticker_summary envNoCurrency "X" 2 "USD" []).1.map
        SummaryData.source_currency = some "USD" ∧
    (get_ticker_summary envNoCurrency "X" 2 "USD" []).1.map
        SummaryData.val_now = some 14 ∧
    fetch_history [("X", 2)] "SEK" [("X", "USD")] (some [histRowX]) =
      fetch_history [("X", 2)] "SEK" [] (some [histRowX]) := by
  obtain ⟨row, hrow, hcur, hval⟩ := usd_default_currency.1 envNoCurrency
    "X" 2 "USD" [] ⟨some 7, none, none⟩ 7 1 (by decide) rfl rfl (by decide)
  refine ⟨?_, ?_, usd_default_currency.2 [("X", 2)] "SEK" []
    (some [histRowX]) "X" rfl⟩
  · rw [hrow]
    simp [hcur]
  · rw [hrow]
    simp [hval]
    norm_num

end Stock
